import Mathlib

/-
Verification of the spreadsheet-grid engine: sparse data store (DataManager),
command / undo-redo engine (CommandManager, CommandGroup) and selection model
(Selection, CellRange), shallowly embedded from the TypeScript sources.

Coordinates and sizes are embedded as `Int` (JavaScript numbers used as
integers), the sparse cell map as an association list mirroring the insertion
order semantics of a JavaScript `Map`, and commands as pairs of
execute / undo functions returning `Except` to model caught exceptions.
-/

namespace Excel

/-! ### JavaScript `Map` as an association list

A JS `Map` keyed by the string `row,col` is embedded as an association list
keyed by the pair of integers (the key construction is injective).  `set` on a
present key overwrites in place, `set` on an absent key appends, `delete`
removes the entry; iteration order is list order, as for a JS `Map`. -/

def mapGet {V : Type} (k : Int × Int) : List ((Int × Int) × V) → Option V
  | [] => none
  | (k', v) :: rest => if k' = k then some v else mapGet k rest

def mapSet {V : Type} (k : Int × Int) (v : V) : List ((Int × Int) × V) → List ((Int × Int) × V)
  | [] => [(k, v)]
  | (k', v') :: rest => if k' = k then (k, v) :: rest else (k', v') :: mapSet k v rest

def mapDel {V : Type} (k : Int × Int) : List ((Int × Int) × V) → List ((Int × Int) × V)
  | [] => []
  | (k', v') :: rest => if k' = k then rest else (k', v') :: mapDel k rest

/-- JavaScript `value.startsWith(prefix)` (used only with the one-character
formula sentinel), embedded as a code-unit prefix test. -/
def strStartsWith (s pre : String) : Bool := pre.data.isPrefixOf s.data

/-! ### Cell (Cell.ts)

The constructor takes row, col, value and an optional formula; an empty
formula argument falls back to the value (`formula || value`).  Font size and
alignments are initialised to the defaults 14 / left / middle. -/

inductive HAlign | left | center | right
  deriving DecidableEq, Repr

inductive VAlign | top | middle | bottom
  deriving DecidableEq, Repr

structure Cell where
  row : Int
  col : Int
  value : String
  formula : String
  fontSize : Int
  horizontalAlignment : HAlign
  verticalAlignment : VAlign
  selected : Bool
  deriving DecidableEq, Repr

/-- `new Cell(row, col, value, formula)`: `_formula = formula || value`. -/
def Cell.make (row col : Int) (value formula : String) : Cell :=
  { row := row, col := col, value := value
    formula := if formula = "" then value else formula
    fontSize := 14, horizontalAlignment := .left, verticalAlignment := .middle
    selected := false }

/-- The `value` setter: assigns the value and, if no formula is set yet,
also uses the value as the formula. -/
def Cell.setValue (c : Cell) (v : String) : Cell :=
  { c with value := v, formula := if c.formula = "" then v else c.formula }

/-! ### Row (Row.ts) and Column (Column.ts) metadata

Heights are clamped to [20, 2000] and widths to [40, 2000] both by the
constructor and by the setter. -/

structure Row where
  index : Int
  height : Int
  selected : Bool
  hidden : Bool
  deriving DecidableEq, Repr

def clampHeight (h : Int) : Int := max 20 (min h 2000)

/-- `new Row(index, height)` (default height 25). -/
def Row.make (index height : Int) : Row :=
  { index := index, height := clampHeight height, selected := false, hidden := false }

/-- The `height` setter clamps to the allowed interval. -/
def Row.setHeight (r : Row) (h : Int) : Row :=
  { r with height := clampHeight h }

structure Column where
  index : Int
  width : Int
  selected : Bool
  hidden : Bool
  deriving DecidableEq, Repr

def clampWidth (w : Int) : Int := max 40 (min w 2000)

/-- `new Column(index, width)` (default width 100). -/
def Column.make (index width : Int) : Column :=
  { index := index, width := clampWidth width, selected := false, hidden := false }

def Column.setWidth (c : Column) (w : Int) : Column :=
  { c with width := clampWidth w }

/-! ### DataManager (DataManager.ts)

The state of a `DataManager`: the sparse cell map, the row and column
metadata arrays, the current counts and the fixed maximum bounds. -/

structure DataManager where
  cells : List ((Int × Int) × Cell)
  columns : List Column
  rows : List Row
  rowCount : Nat
  columnCount : Nat
  maxRows : Nat
  maxColumns : Nat
  deriving DecidableEq, Repr

namespace DataManager

/-- The constructor: counts start at the initial sizes and the metadata
arrays are filled with default rows and columns. -/
def make (initialRows initialColumns maxRows maxColumns : Nat) : DataManager :=
  { cells := []
    columns := (List.range initialColumns).map (fun i => Column.make (i : Int) 100)
    rows := (List.range initialRows).map (fun i => Row.make (i : Int) 25)
    rowCount := initialRows
    columnCount := initialColumns
    maxRows := maxRows
    maxColumns := maxColumns }

/-- Out-of-max-bounds test shared by getCellValue / setCellValue / getCell. -/
def outOfBounds (s : DataManager) (row col : Int) : Prop :=
  row < 0 ∨ (s.maxRows : Int) ≤ row ∨ col < 0 ∨ (s.maxColumns : Int) ≤ col

instance (s : DataManager) (row col : Int) : Decidable (outOfBounds s row col) := by
  unfold outOfBounds; infer_instance

/-- `getCellValue`: empty string when out of bounds or absent. -/
def getCellValue (s : DataManager) (row col : Int) : String :=
  if outOfBounds s row col then ""
  else match mapGet (row, col) s.cells with
    | some c => c.value
    | none => ""

/-- `getCell`: a stored cell, or a transient default cell (not inserted)
for an in-bounds absent coordinate; `none` models the `null` returned for
out-of-bounds coordinates. -/
def getCell (s : DataManager) (row col : Int) : Option Cell :=
  if outOfBounds s row col then none
  else match mapGet (row, col) s.cells with
    | some c => some c
    | none => some (Cell.make row col "" "")

/-- The row-growing while loop of `ensureCapacity`, with explicit fuel; the
loop runs at most `maxRows` times, and any fuel of at least
`maxRows - rowCount` gives the loop's exit state. -/
def ensureRowsAux (maxRows : Nat) (required : Int) :
    Nat → List Row → Nat → List Row × Nat
  | 0, rows, rowCount => (rows, rowCount)
  | fuel + 1, rows, rowCount =>
    if (rowCount : Int) < required ∧ rowCount < maxRows then
      ensureRowsAux maxRows required fuel (rows ++ [Row.make (rowCount : Int) 25]) (rowCount + 1)
    else (rows, rowCount)

def ensureColsAux (maxColumns : Nat) (required : Int) :
    Nat → List Column → Nat → List Column × Nat
  | 0, cols, colCount => (cols, colCount)
  | fuel + 1, cols, colCount =>
    if (colCount : Int) < required ∧ colCount < maxColumns then
      ensureColsAux maxColumns required fuel (cols ++ [Column.make (colCount : Int) 100]) (colCount + 1)
    else (cols, colCount)

/-- `ensureCapacity(requiredRows, requiredCols)`: grows the counts (never
shrinks) up to the max bounds, appending default metadata records. -/
def ensureCapacity (s : DataManager) (requiredRows requiredCols : Int) : DataManager :=
  { s with
      rows := (ensureRowsAux s.maxRows requiredRows s.maxRows s.rows s.rowCount).1
      rowCount := (ensureRowsAux s.maxRows requiredRows s.maxRows s.rows s.rowCount).2
      columns := (ensureColsAux s.maxColumns requiredCols s.maxColumns s.columns s.columnCount).1
      columnCount := (ensureColsAux s.maxColumns requiredCols s.maxColumns s.columns s.columnCount).2 }

/-- The external formula evaluator invoked on values starting with the `=`
sentinel (parseFormula); out of scope for the core, so taken as a parameter. -/
def Evaluator : Type := String → DataManager → String

/-- `setCellValue`: no-op when out of max bounds; otherwise grows capacity,
then deletes the stored cell (empty value) or creates / updates it, passing
values starting with `=` through the formula evaluator. -/
def setCellValue (φ : Evaluator) (s : DataManager) (row col : Int) (value : String) : DataManager :=
  if outOfBounds s row col then s
  else
    let s := ensureCapacity s (row + 1) (col + 1)
    if value = "" then { s with cells := mapDel (row, col) s.cells }
    else
      match mapGet (row, col) s.cells with
      | none =>
        let v := if strStartsWith value "=" then φ value s else value
        { s with cells := mapSet (row, col) (Cell.make row col v "") s.cells }
      | some cell =>
        let v := if strStartsWith value "=" then φ value s else value
        { s with cells := mapSet (row, col) (cell.setValue v) s.cells }

/-- `row.setIndex(i)` applied to every record at position `start` or later;
the code leaves earlier records untouched. -/
def setRowIndicesFrom (start : Nat) : Nat → List Row → List Row
  | _, [] => []
  | j, r :: rest =>
    (if start ≤ j then { r with index := (j : Int) } else r) :: setRowIndicesFrom start (j + 1) rest

def setColIndicesFrom (start : Nat) : Nat → List Column → List Column
  | _, [] => []
  | j, c :: rest =>
    (if start ≤ j then { c with index := (j : Int) } else c) :: setColIndicesFrom start (j + 1) rest

/-- `insertRow(index)`: fails when the index is invalid or the row count is
at max capacity; on success shifts every stored cell with row ≥ index down
by one (updating the cell's row field in place), splices a default row
record in, renumbers the following records and increments the count. -/
def insertRow (s : DataManager) (index : Int) : Bool × DataManager :=
  if index < 0 ∨ (s.rowCount : Int) < index ∨ s.maxRows ≤ s.rowCount then (false, s)
  else
    let newCells := s.cells.map (fun e =>
      if index ≤ e.1.1 then ((e.1.1 + 1, e.1.2), { e.2 with row := e.1.1 + 1 }) else e)
    let rows' := s.rows.take index.toNat ++ [Row.make index 25] ++ s.rows.drop index.toNat
    (true, { s with cells := newCells
                    rows := setRowIndicesFrom (index.toNat + 1) 0 rows'
                    rowCount := s.rowCount + 1 })

/-- `insertColumn(index)`: the column analogue of `insertRow`. -/
def insertColumn (s : DataManager) (index : Int) : Bool × DataManager :=
  if index < 0 ∨ (s.columnCount : Int) < index ∨ s.maxColumns ≤ s.columnCount then (false, s)
  else
    let newCells := s.cells.map (fun e =>
      if index ≤ e.1.2 then ((e.1.1, e.1.2 + 1), { e.2 with col := e.1.2 + 1 }) else e)
    let cols' := s.columns.take index.toNat ++ [Column.make index 100] ++ s.columns.drop index.toNat
    (true, { s with cells := newCells
                    columns := setColIndicesFrom (index.toNat + 1) 0 cols'
                    columnCount := s.columnCount + 1 })

/-- `deleteRow(index)`: fails when the index is invalid or deletion would
reduce the count below 1; on success removes every stored cell at the index
(orphaned, not returned), shifts the cells beyond it up by one, splices the
row record out, renumbers and decrements the count. -/
def deleteRow (s : DataManager) (index : Int) : Bool × DataManager :=
  if index < 0 ∨ (s.rowCount : Int) ≤ index ∨ s.rowCount ≤ 1 then (false, s)
  else
    let newCells := s.cells.filterMap (fun e =>
      if e.1.1 = index then none
      else if index < e.1.1 then some ((e.1.1 - 1, e.1.2), { e.2 with row := e.1.1 - 1 })
      else some e)
    let rows' := s.rows.take index.toNat ++ s.rows.drop (index.toNat + 1)
    (true, { s with cells := newCells
                    rows := setRowIndicesFrom index.toNat 0 rows'
                    rowCount := s.rowCount - 1 })

/-- `deleteColumn(index)`: the column analogue of `deleteRow`. -/
def deleteColumn (s : DataManager) (index : Int) : Bool × DataManager :=
  if index < 0 ∨ (s.columnCount : Int) ≤ index ∨ s.columnCount ≤ 1 then (false, s)
  else
    let newCells := s.cells.filterMap (fun e =>
      if e.1.2 = index then none
      else if index < e.1.2 then some ((e.1.1, e.1.2 - 1), { e.2 with col := e.1.2 - 1 })
      else some e)
    let cols' := s.columns.take index.toNat ++ s.columns.drop (index.toNat + 1)
    (true, { s with cells := newCells
                    columns := setColIndicesFrom index.toNat 0 cols'
                    columnCount := s.columnCount - 1 })

end DataManager

/-! ### DeleteRowColumnCommand (DeleteRowColumnCommand.ts)

Before delegating to the store's delete, the command snapshots the
non-empty cells of the doomed row / column and the row / column metadata
record; undo re-inserts the row / column, restores its height / width and
re-sets the snapshotted VALUES via `setCellValue` (the snapshotted font
size and alignments are not restored — the undo body carries TODO comments
for them). -/

/-- Replace the element at an index when it exists (`if (newRow) ...`). -/
def listModify {α : Type} (l : List α) (n : Nat) (f : α → α) : List α :=
  match l.get? n with
  | none => l
  | some x => l.set n (f x)

inductive RC | row | column
  deriving DecidableEq, Repr

/-- The captured `_deletedData`: the snapshot cells keep only the fields
undo reads back (original row, col and value). -/
structure DeletedData where
  type : RC
  index : Int
  cells : List (Int × Int × String)
  headerRow : Option Row
  headerCol : Option Column
  deriving DecidableEq, Repr

namespace DeleteRowColumnCommand

open DataManager

/-- The snapshot loop over the row to be deleted: `getCell` per column,
keeping stored cells with a non-empty value. -/
def snapshotRowCells (s : DataManager) (index : Int) : List (Int × Int × String) :=
  (List.range s.columnCount).filterMap (fun c =>
    match getCell s index (c : Int) with
    | none => none
    | some cell => if cell.value = "" then none else some (cell.row, cell.col, cell.value))

def snapshotColCells (s : DataManager) (index : Int) : List (Int × Int × String) :=
  (List.range s.rowCount).filterMap (fun r =>
    match getCell s (r : Int) index with
    | none => none
    | some cell => if cell.value = "" then none else some (cell.row, cell.col, cell.value))

/-- `execute()`: guards, snapshot, then the store delete.  Returns the
result, the store and the captured `_deletedData` (unchanged when the
negative-index guard fires first). -/
def execute (s : DataManager) (type : RC) (index : Int) (dd : Option DeletedData) :
    Bool × DataManager × Option DeletedData :=
  if index < 0 then (false, s, dd)
  else
    match type with
    | .row =>
      if (s.rowCount : Int) ≤ index then
        (false, s, some { type := .row, index := index, cells := [], headerRow := none, headerCol := none })
      else
        let cellsSnap := snapshotRowCells s index
        let headerSnap := (s.rows.get? index.toNat).map (fun r => Row.make r.index r.height)
        let (ok, s') := deleteRow s index
        (ok, s', some { type := .row, index := index, cells := cellsSnap
                        headerRow := headerSnap, headerCol := none })
    | .column =>
      if (s.columnCount : Int) ≤ index then
        (false, s, some { type := .column, index := index, cells := [], headerRow := none, headerCol := none })
      else
        let cellsSnap := snapshotColCells s index
        let headerSnap := (s.columns.get? index.toNat).map (fun c => Column.make c.index c.width)
        let (ok, s') := deleteColumn s index
        (ok, s', some { type := .column, index := index, cells := cellsSnap
                        headerRow := none, headerCol := headerSnap })

/-- `undo()`: re-insert the row / column, restore the height / width from
the snapshot, then re-set the snapshotted cell VALUES (always into the
re-inserted index). -/
def undoCmd (φ : Evaluator) (s : DataManager) (dd : Option DeletedData) : Bool × DataManager :=
  match dd with
  | none => (false, s)
  | some d =>
    match d.type with
    | .row =>
      let (ok, s₁) := insertRow s d.index
      let s₂ :=
        if ok then
          match d.headerRow with
          | some hr => { s₁ with rows := listModify s₁.rows d.index.toNat (fun r => r.setHeight hr.height) }
          | none => s₁
        else s₁
      if ok then
        (true, d.cells.foldl (fun acc snap => setCellValue φ acc d.index snap.2.1 snap.2.2) s₂)
      else (false, s₂)
    | .column =>
      let (ok, s₁) := insertColumn s d.index
      let s₂ :=
        if ok then
          match d.headerCol with
          | some hc => { s₁ with columns := listModify s₁.columns d.index.toNat (fun c => c.setWidth hc.width) }
          | none => s₁
        else s₁
      if ok then
        (true, d.cells.foldl (fun acc snap => setCellValue φ acc snap.1 d.index snap.2.2) s₂)
      else (false, s₂)

end DeleteRowColumnCommand

/-! ### Commands (Command.ts, CommandManager.ts)

A command over a state type `σ` is a pair of execute / undo functions.
`Except σ` models a thrown JavaScript exception: `.error s` is a throw that
left the state at `s`; `.ok (b, s)` is a normal boolean return. -/

structure Cmd (σ : Type) where
  exec : σ → Except σ (Bool × σ)
  undo : σ → Except σ (Bool × σ)

namespace CommandGroup

variable {σ : Type}

/-- The unwind loop of `CommandGroup.execute` run inside the `try` block:
undo the already-executed commands (most recent first), letting any thrown
exception propagate.  The boolean results of the undos are ignored. -/
def undoAll (executed : List (Cmd σ)) (s : σ) : Except σ σ :=
  match executed with
  | [] => .ok s
  | c :: rest =>
    match c.undo s with
    | .ok (_, s') => undoAll rest s'
    | .error s' => .error s'

/-- The unwind loop of the `catch` branch: each undo is wrapped in its own
try / catch, so exceptions are swallowed and the loop always completes. -/
def undoAllCatch (executed : List (Cmd σ)) (s : σ) : σ :=
  match executed with
  | [] => s
  | c :: rest =>
    match c.undo s with
    | .ok (_, s') => undoAllCatch rest s'
    | .error s' => undoAllCatch rest s'

/-- The command loop of `CommandGroup.execute`.  `executed` holds the
commands that returned true so far, most recent first.  When a command
returns false, the already-executed commands are undone inside the `try`
(an exception there falls to the `catch`, which re-runs the full unwind with
per-command catches); when a command throws, the `catch` unwind runs. -/
def executeAux (cmds : List (Cmd σ)) (executed : List (Cmd σ)) (s : σ) : Bool × σ :=
  match cmds with
  | [] => (true, s)
  | c :: rest =>
    match c.exec s with
    | .ok (true, s') => executeAux rest (c :: executed) s'
    | .ok (false, s') =>
      match undoAll executed s' with
      | .ok s'' => (false, s'')
      | .error sErr => (false, undoAllCatch executed sErr)
    | .error s' => (false, undoAllCatch executed s')

/-- `CommandGroup.execute()`. -/
def execute (cmds : List (Cmd σ)) (s : σ) : Bool × σ :=
  executeAux cmds [] s

/-- The forward re-execute loop of `CommandGroup.undo` run inside the `try`
block (exceptions propagate, results ignored). -/
def reExecAll (undone : List (Cmd σ)) (s : σ) : Except σ σ :=
  match undone with
  | [] => .ok s
  | c :: rest =>
    match c.exec s with
    | .ok (_, s') => reExecAll rest s'
    | .error s' => .error s'

/-- The forward re-execute loop of the `catch` branch (exceptions swallowed). -/
def reExecAllCatch (undone : List (Cmd σ)) (s : σ) : σ :=
  match undone with
  | [] => s
  | c :: rest =>
    match c.exec s with
    | .ok (_, s') => reExecAllCatch rest s'
    | .error s' => reExecAllCatch rest s'

/-- The loop of `CommandGroup.undo`: commands are visited in reverse order
(here: `cmds` already reversed); `undone` collects successfully undone
commands in forward order (`unshift`). -/
def undoAux (cmds : List (Cmd σ)) (undone : List (Cmd σ)) (s : σ) : Bool × σ :=
  match cmds with
  | [] => (true, s)
  | c :: rest =>
    match c.undo s with
    | .ok (true, s') => undoAux rest (c :: undone) s'
    | .ok (false, s') =>
      match reExecAll undone s' with
      | .ok s'' => (false, s'')
      | .error sErr => (false, reExecAllCatch undone sErr)
    | .error s' => (false, reExecAllCatch undone s')

/-- `CommandGroup.undo()`. -/
def undoGroup (cmds : List (Cmd σ)) (s : σ) : Bool × σ :=
  undoAux cmds.reverse [] s

/-- A `CommandGroup` wrapped back up as a command (its execute and undo
never throw: every exception is caught inside). -/
def asCmd (cmds : List (Cmd σ)) : Cmd σ :=
  { exec := fun s => .ok (execute cmds s)
    undo := fun s => .ok (undoGroup cmds s) }

end CommandGroup

/-! ### CommandManager (CommandManager.ts)

Stacks are lists with the most recent command at the END (JS array push /
pop at the end, trim via shift at the front). -/

structure CommandManager (σ : Type) where
  undoStack : List (Cmd σ)
  redoStack : List (Cmd σ)
  maxHistorySize : Nat
  paused : Bool

namespace CommandManager

variable {σ : Type}

/-- The constructor (default maxHistorySize 100). -/
def make (maxHistorySize : Nat) : CommandManager σ :=
  { undoStack := [], redoStack := [], maxHistorySize := maxHistorySize, paused := false }

/-- `trimHistory()`: while the undo stack exceeds the maximum size, shift
the oldest command off the front. -/
def trimHistory (maxSize : Nat) : List (Cmd σ) → List (Cmd σ)
  | [] => []
  | c :: rest => if maxSize < rest.length + 1 then trimHistory maxSize rest else c :: rest

/-- `executeCommand(cmd)`: while paused, just run the command (a throw
propagates, modelled by `.error`).  Otherwise run it under try / catch; on
a true result push it onto the undo stack, clear the redo stack and trim;
on false or a caught throw leave both stacks untouched and return false. -/
def executeCommand (cm : CommandManager σ) (s : σ) (c : Cmd σ) :
    Except (σ × CommandManager σ) (Bool × σ × CommandManager σ) :=
  if cm.paused then
    match c.exec s with
    | .ok (b, s') => .ok (b, s', cm)
    | .error s' => .error (s', cm)
  else
    match c.exec s with
    | .ok (true, s') =>
      .ok (true, s',
        { cm with undoStack := trimHistory cm.maxHistorySize (cm.undoStack ++ [c])
                  redoStack := [] })
    | .ok (false, s') => .ok (false, s', cm)
    | .error s' => .ok (false, s', cm)

/-- `undo()`: pop the most recent command; on a true undo push it to the
redo stack, on false or a caught throw push it back unchanged. -/
def undoCM (cm : CommandManager σ) (s : σ) : Bool × σ × CommandManager σ :=
  match cm.undoStack.getLast? with
  | none => (false, s, cm)
  | some c =>
    let rest := cm.undoStack.dropLast
    match c.undo s with
    | .ok (true, s') => (true, s', { cm with undoStack := rest, redoStack := cm.redoStack ++ [c] })
    | .ok (false, s') => (false, s', { cm with undoStack := rest ++ [c] })
    | .error s' => (false, s', { cm with undoStack := rest ++ [c] })

/-- `redo()`: pop the most recent undone command; on a true execute push it
to the undo stack, on false or a caught throw push it back unchanged. -/
def redoCM (cm : CommandManager σ) (s : σ) : Bool × σ × CommandManager σ :=
  match cm.redoStack.getLast? with
  | none => (false, s, cm)
  | some c =>
    let rest := cm.redoStack.dropLast
    match c.exec s with
    | .ok (true, s') => (true, s', { cm with undoStack := cm.undoStack ++ [c], redoStack := rest })
    | .ok (false, s') => (false, s', { cm with redoStack := rest ++ [c] })
    | .error s' => (false, s', { cm with redoStack := rest ++ [c] })

/-- `clearHistory()`. -/
def clearHistory (cm : CommandManager σ) : CommandManager σ :=
  { cm with undoStack := [], redoStack := [] }

/-- The public operations of a CommandManager, for stating invariants over
every reachable state. -/
inductive Op (σ : Type) where
  | exec (c : Cmd σ)
  | execGroup (cs : List (Cmd σ))
  | undoOp
  | redoOp
  | clearHist
  | pause
  | resume

/-- Apply one operation to the paired store / manager state.
`executeCommandGroup` returns true without running anything on an empty
command list, otherwise executes the wrapped group. -/
def applyOp (op : Op σ) (st : σ × CommandManager σ) : σ × CommandManager σ :=
  match op with
  | .exec c =>
    match executeCommand st.2 st.1 c with
    | .ok (_, s', cm') => (s', cm')
    | .error (s', cm') => (s', cm')
  | .execGroup cs =>
    if cs.length = 0 then st
    else
      match executeCommand st.2 st.1 (CommandGroup.asCmd cs) with
      | .ok (_, s', cm') => (s', cm')
      | .error (s', cm') => (s', cm')
  | .undoOp => let (_, s', cm') := undoCM st.2 st.1; (s', cm')
  | .redoOp => let (_, s', cm') := redoCM st.2 st.1; (s', cm')
  | .clearHist => (st.1, clearHistory st.2)
  | .pause => (st.1, { st.2 with paused := true })
  | .resume => (st.1, { st.2 with paused := false })

/-- Successively execute a list of commands through `executeCommand`. -/
def executeList (cmds : List (Cmd σ)) (st : σ × CommandManager σ) : σ × CommandManager σ :=
  match cmds with
  | [] => st
  | c :: rest => executeList rest (applyOp (.exec c) st)

end CommandManager

/-! ### CellRange (CellRange.ts) -/

structure CellRange where
  startRow : Int
  endRow : Int
  startCol : Int
  endCol : Int
  isColumnSelection : Bool
  isRowSelection : Bool
  deriving DecidableEq, Repr

namespace CellRange

/-- `new CellRange(startRow, startCol, endRow, endCol)`: bounds normalized
so start ≤ end; flags cleared. -/
def make (startRow startCol endRow endCol : Int) : CellRange :=
  { startRow := min startRow endRow, endRow := max startRow endRow
    startCol := min startCol endCol, endCol := max startCol endCol
    isColumnSelection := false, isRowSelection := false }

/-- `new CellRange(row, col)` with the omitted ends defaulting to the starts. -/
def makeCell (row col : Int) : CellRange := make row col row col

/-- `setColumnSelection(startCol, endCol, maxRows)`. -/
def setColumnSelection (r : CellRange) (startCol endCol maxRows : Int) : CellRange :=
  { r with startCol := min startCol endCol, endCol := max startCol endCol
           startRow := 0, endRow := maxRows - 1
           isColumnSelection := true, isRowSelection := false }

/-- `setRowSelection(startRow, endRow, maxCols)`. -/
def setRowSelection (r : CellRange) (startRow endRow maxCols : Int) : CellRange :=
  { r with startRow := min startRow endRow, endRow := max startRow endRow
           startCol := 0, endCol := maxCols - 1
           isRowSelection := true, isColumnSelection := false }

/-- `contains(row, col)`. -/
def contains (r : CellRange) (row col : Int) : Bool :=
  r.startRow ≤ row ∧ row ≤ r.endRow ∧ r.startCol ≤ col ∧ col ≤ r.endCol

/-- `isSingleCell()`. -/
def isSingleCell (r : CellRange) : Bool :=
  r.startRow = r.endRow ∧ r.startCol = r.endCol

/-- `expandTo(row, col)`. -/
def expandTo (r : CellRange) (row col : Int) : CellRange :=
  { r with startRow := min r.startRow row, endRow := max r.endRow row
           startCol := min r.startCol col, endCol := max r.endCol col }

/-- The while loop of `getColumnLabel`, with explicit fuel: each step
prepends the character for `index % 26` and continues with
`index / 26 - 1`; fuel `n + 1` always suffices for input `n` since the
index strictly decreases. -/
def columnLabelAux : Nat → Nat → String
  | 0, _ => ""
  | fuel + 1, n =>
    (if 26 ≤ n then columnLabelAux fuel (n / 26 - 1) else "")
      ++ String.singleton (Char.ofNat (n % 26 + 65))

/-- `getColumnLabel(index)`: spreadsheet base-26 letters; the loop body
never runs for a negative index. -/
def getColumnLabel (index : Int) : String :=
  if index < 0 then "" else columnLabelAux (index.toNat + 1) index.toNat

/-- `getRangeString()`: single cell as `A1`; column / row selections print
label-only; otherwise `A1:C3`. -/
def getRangeString (r : CellRange) : String :=
  let startColLabel := getColumnLabel r.startCol
  let endColLabel := getColumnLabel r.endCol
  let startRowLabel := toString (r.startRow + 1)
  let endRowLabel := toString (r.endRow + 1)
  if r.isSingleCell then startColLabel ++ startRowLabel
  else if r.isColumnSelection then
    if startColLabel = endColLabel then startColLabel else startColLabel ++ ":" ++ endColLabel
  else if r.isRowSelection then
    if startRowLabel = endRowLabel then startRowLabel else startRowLabel ++ ":" ++ endRowLabel
  else startColLabel ++ startRowLabel ++ ":" ++ endColLabel ++ endRowLabel

/-- `clone()`: copies bounds and flags into a fresh object. -/
def clone (r : CellRange) : CellRange :=
  { make r.startRow r.startCol r.endRow r.endCol with
      isColumnSelection := r.isColumnSelection, isRowSelection := r.isRowSelection }

end CellRange

/-! ### Selection (Selection class)

JavaScript object identity is modelled with an arena: every `CellRange`
object ever created lives at a stable index (its identity) in `arena`;
`ranges` and `activeRange` hold identities.  Two list entries are the same
object precisely when they hold the same index. -/

structure Selection where
  arena : List CellRange
  ranges : List Nat
  activeRange : Option Nat
  multiSelect : Bool
  maxRows : Int
  maxCols : Int
  deriving DecidableEq, Repr

namespace Selection

/-- Allocate a fresh `CellRange` object. -/
def alloc (s : Selection) (r : CellRange) : Selection × Nat :=
  ({ s with arena := s.arena ++ [r] }, s.arena.length)

/-- Dereference an identity (total: every identity held by a reachable
state is in range). -/
def getRange (s : Selection) (id : Nat) : CellRange :=
  s.arena.getD id (CellRange.makeCell 0 0)

/-- `clearSelection()`. -/
def clearSelection (s : Selection) : Selection :=
  { s with ranges := [], activeRange := none }

/-- The shared clear-then-append tail of every select call: clear unless
adding to a multi-select, then push the new range and make it active. -/
def pushRange (s : Selection) (r : CellRange) (addToSelection : Bool) : Selection :=
  let (s, rid) := alloc s r
  let s := if ¬addToSelection ∨ ¬s.multiSelect then clearSelection s else s
  { s with ranges := s.ranges ++ [rid], activeRange := some rid }

/-- `selectCell(row, col, addToSelection)`. -/
def selectCell (s : Selection) (row col : Int) (addToSelection : Bool) : Selection :=
  pushRange s (CellRange.makeCell row col) addToSelection

/-- `selectRange(startRow, startCol, endRow, endCol, addToSelection)`. -/
def selectRange (s : Selection) (startRow startCol endRow endCol : Int)
    (addToSelection : Bool) : Selection :=
  pushRange s (CellRange.make startRow startCol endRow endCol) addToSelection

/-- `selectColumn(col, addToSelection)`. -/
def selectColumn (s : Selection) (col : Int) (addToSelection : Bool) : Selection :=
  pushRange s ((CellRange.makeCell 0 col).setColumnSelection col col s.maxRows) addToSelection

/-- `selectColumnRange(startCol, endCol, addToSelection)`. -/
def selectColumnRange (s : Selection) (startCol endCol : Int) (addToSelection : Bool) : Selection :=
  pushRange s ((CellRange.makeCell 0 startCol).setColumnSelection startCol endCol s.maxRows)
    addToSelection

/-- `selectRow(row, addToSelection)`. -/
def selectRow (s : Selection) (row : Int) (addToSelection : Bool) : Selection :=
  pushRange s ((CellRange.makeCell row 0).setRowSelection row row s.maxCols) addToSelection

/-- `selectRowRange(startRow, endRow, addToSelection)`: note the code sets
`_multiSelect = true` before the clear-then-append step. -/
def selectRowRange (s : Selection) (startRow endRow : Int) (addToSelection : Bool) : Selection :=
  let r := (CellRange.makeCell startRow 0).setRowSelection startRow endRow s.maxCols
  let s := { s with multiSelect := true }
  pushRange s r addToSelection

/-- The constructor: fields initialised then `selectCell(0, 0)`. -/
def make (maxRows maxCols : Int) : Selection :=
  selectCell
    { arena := [], ranges := [], activeRange := none, multiSelect := false
      maxRows := maxRows, maxCols := maxCols } 0 0 false

/-- `extendSelection(row, col)`: expand the active range in place, falling
back to `selectCell` when there is none. -/
def extendSelection (s : Selection) (row col : Int) : Selection :=
  match s.activeRange with
  | none => selectCell s row col false
  | some id => { s with arena := s.arena.set id ((getRange s id).expandTo row col) }

/-- `removeRange(index)`: splice the range out; if it was the active range
(object identity), fall back to the last remaining range or null. -/
def removeRange (s : Selection) (index : Int) : Selection :=
  if 0 ≤ index ∧ index < (s.ranges.length : Int) then
    match s.ranges.get? index.toNat with
    | none => s
    | some removed =>
      let ranges' := s.ranges.take index.toNat ++ s.ranges.drop (index.toNat + 1)
      let active' :=
        if s.activeRange = some removed then ranges'.getLast? else s.activeRange
      { s with ranges := ranges', activeRange := active' }
  else s

/-- `toggleCell(row, col)`: remove the whole first range containing the
cell, or add a single-cell range. -/
def toggleCell (s : Selection) (row col : Int) : Selection :=
  match s.ranges.findIdx? (fun id => (getRange s id).contains row col) with
  | some idx => removeRange s (idx : Int)
  | none => selectCell s row col true

/-- `selectAll()`. -/
def selectAll (s : Selection) : Selection :=
  let s := clearSelection s
  let (s, rid) := alloc s (CellRange.make 0 0 (s.maxRows - 1) (s.maxCols - 1))
  { s with ranges := s.ranges ++ [rid], activeRange := some rid }

/-- The `multiSelect` setter: when disabling with more than one range,
keep only the active range (or none). -/
def setMultiSelect (s : Selection) (enabled : Bool) : Selection :=
  let s := { s with multiSelect := enabled }
  if ¬enabled ∧ 1 < s.ranges.length then
    { s with ranges := match s.activeRange with | some a => [a] | none => [] }
  else s

/-- `clone()`: a fresh Selection (whose constructor allocates its own
initial range), whose ranges are clones of this selection's ranges and
whose active range is a SEPARATE clone of this selection's active range. -/
def clone (s : Selection) : Selection :=
  let init := make s.maxRows s.maxCols
  let base := init.arena.length
  let arena₁ := init.arena ++ s.ranges.map (fun id => (getRange s id).clone)
  let ranges₁ := (List.range s.ranges.length).map (fun k => base + k)
  match s.activeRange with
  | none =>
    { init with arena := arena₁, ranges := ranges₁, activeRange := none
                multiSelect := s.multiSelect }
  | some aid =>
    { init with arena := arena₁ ++ [(getRange s aid).clone], ranges := ranges₁
                activeRange := some arena₁.length, multiSelect := s.multiSelect }

/-- The spec invariant: a non-null active range is a member of the ranges
sequence by object identity. -/
def activeInv (s : Selection) : Prop :=
  ∀ id, s.activeRange = some id → id ∈ s.ranges

instance (s : Selection) : Decidable (activeInv s) := by
  unfold activeInv
  exact decidable_of_iff (∀ id ∈ s.activeRange, id ∈ s.ranges) (by simp)

/-- The public operations named by the membership-invariant claim, clone
kept separate because it breaks the invariant. -/
inductive Op where
  | selCell (row col : Int) (add : Bool)
  | selRange (sr sc er ec : Int) (add : Bool)
  | selColumn (col : Int) (add : Bool)
  | selColumnRange (sc ec : Int) (add : Bool)
  | selRow (row : Int) (add : Bool)
  | selRowRange (sr er : Int) (add : Bool)
  | extend (row col : Int)
  | remove (index : Int)
  | toggle (row col : Int)
  | clearSel
  | selAll
  | setMulti (enabled : Bool)

def applyOp (op : Op) (s : Selection) : Selection :=
  match op with
  | .selCell r c a => selectCell s r c a
  | .selRange sr sc er ec a => selectRange s sr sc er ec a
  | .selColumn c a => selectColumn s c a
  | .selColumnRange sc ec a => selectColumnRange s sc ec a
  | .selRow r a => selectRow s r a
  | .selRowRange sr er a => selectRowRange s sr er a
  | .extend r c => extendSelection s r c
  | .remove i => removeRange s i
  | .toggle r c => toggleCell s r c
  | .clearSel => clearSelection s
  | .selAll => selectAll s
  | .setMulti e => setMultiSelect s e

end Selection

/-! ### Concrete demonstration states -/

/-- The trivial external formula evaluator (no claim depends on formula
results). -/
def trivialEvaluator : DataManager.Evaluator := fun _ _ => ""

/-- A stored cell with a non-default horizontal alignment, as produced by
writing a value and then setting the alignment through the cell returned
by `getCell`. -/
def demoCell : Cell :=
  { row := 0, col := 0, value := "A", formula := "A", fontSize := 14
    horizontalAlignment := .center, verticalAlignment := .middle, selected := false }

/-- A 2-row, 1-column store holding `demoCell` at (0, 0). -/
def demoStore : DataManager :=
  { cells := [((0, 0), demoCell)]
    columns := [Column.make 0 100]
    rows := [Row.make 0 25, Row.make 1 25]
    rowCount := 2, columnCount := 1, maxRows := 10, maxColumns := 10 }

/-- A toy command over `Int` stores: adds one, undone by subtracting one. -/
def cmdInc : Cmd Int :=
  { exec := fun s => .ok (true, s + 1), undo := fun s => .ok (true, s - 1) }

/-- A toy command that always fails without touching the store. -/
def cmdFail : Cmd Int :=
  { exec := fun s => .ok (false, s), undo := fun s => .ok (true, s) }

/-! ## Theorems -/

/-! ### Map and list helper lemmas -/

theorem mapGet_mapSet_self {V : Type} (k : Int × Int) (v : V) (l : List ((Int × Int) × V)) :
    mapGet k (mapSet k v l) = some v := by
  induction l with
  | nil => simp [mapGet, mapSet]
  | cons hd tl ih =>
    obtain ⟨k', v'⟩ := hd
    by_cases h : k' = k
    · simp [mapGet, mapSet, h]
    · simp [mapGet, mapSet, h, ih]

@[simp] theorem ensureCapacity_cells (s : DataManager) (a b : Int) :
    (DataManager.ensureCapacity s a b).cells = s.cells := rfl

@[simp] theorem ensureCapacity_maxRows (s : DataManager) (a b : Int) :
    (DataManager.ensureCapacity s a b).maxRows = s.maxRows := rfl

@[simp] theorem ensureCapacity_maxColumns (s : DataManager) (a b : Int) :
    (DataManager.ensureCapacity s a b).maxColumns = s.maxColumns := rfl

theorem mem_of_getLast? {α : Type} {l : List α} {a : α} (h : l.getLast? = some a) : a ∈ l := by
  have hne : l ≠ [] := by rintro rfl; simp at h
  rw [List.getLast?_eq_getLast l hne] at h
  simp only [Option.some.injEq] at h
  exact h ▸ List.getLast_mem hne

theorem mem_take_append_drop_of_ne {α : Type} {l : List α} {a b : α} {n : Nat}
    (ha : a ∈ l) (hb : l.get? n = some b) (hne : a ≠ b) :
    a ∈ l.take n ++ l.drop (n + 1) := by
  induction l generalizing n with
  | nil => simp at ha
  | cons x xs ih =>
    cases n with
    | zero =>
      simp only [List.get?] at hb
      rcases List.mem_cons.mp ha with h | h
      · exact absurd (h.trans (Option.some.injEq .. ▸ hb.symm ▸ rfl)) hne
      · simpa using h
    | succ m =>
      simp only [List.get?] at hb
      rcases List.mem_cons.mp ha with h | h
      · simp [List.take_succ_cons, h]
      · simpa [List.take_succ_cons, List.drop_succ_cons] using Or.inr (ih h hb)

/-! ### C9: coordinate label format -/

/-- C9: the column-label function maps 0 to A, 25 to Z, 26 to AA and 27 to
AB; getRangeString prints the single cell (0,0) as A1, the rectangle
(0,0)-(2,2) as A1:C3, and ranges flagged as pure column or row selections
label-only (A, A:C, 1, 1:3). -/
theorem columnLabel_and_rangeString_format :
    CellRange.getColumnLabel 0 = "A" ∧
    CellRange.getColumnLabel 25 = "Z" ∧
    CellRange.getColumnLabel 26 = "AA" ∧
    CellRange.getColumnLabel 27 = "AB" ∧
    CellRange.getRangeString (CellRange.makeCell 0 0) = "A1" ∧
    CellRange.getRangeString (CellRange.make 0 0 2 2) = "A1:C3" ∧
    CellRange.getRangeString ((CellRange.makeCell 0 0).setColumnSelection 0 0 100000) = "A" ∧
    CellRange.getRangeString ((CellRange.makeCell 0 0).setColumnSelection 0 2 100000) = "A:C" ∧
    CellRange.getRangeString ((CellRange.makeCell 0 0).setRowSelection 0 0 500) = "1" ∧
    CellRange.getRangeString ((CellRange.makeCell 0 0).setRowSelection 0 2 500) = "1:3" := by
  decide

/-! ### C6: structural-operation failure semantics -/

/-- C6: insertRow / insertColumn return false with no mutation when the
index is invalid (negative or beyond the count) or the count is at max
capacity; deleteRow / deleteColumn return false with no mutation when the
index is invalid or the deletion would reduce the count below 1.  The
embedded operations are total functions, so none of them can throw. -/
theorem structural_ops_fail_soft (s : DataManager) (i : Int) :
    ((i < 0 ∨ (s.rowCount : Int) < i ∨ s.maxRows ≤ s.rowCount) →
      DataManager.insertRow s i = (false, s)) ∧
    ((i < 0 ∨ (s.columnCount : Int) < i ∨ s.maxColumns ≤ s.columnCount) →
      DataManager.insertColumn s i = (false, s)) ∧
    ((i < 0 ∨ (s.rowCount : Int) ≤ i ∨ s.rowCount ≤ 1) →
      DataManager.deleteRow s i = (false, s)) ∧
    ((i < 0 ∨ (s.columnCount : Int) ≤ i ∨ s.columnCount ≤ 1) →
      DataManager.deleteColumn s i = (false, s)) := by
  refine ⟨fun h => ?_, fun h => ?_, fun h => ?_, fun h => ?_⟩
  · simp [DataManager.insertRow, h]
  · simp [DataManager.insertColumn, h]
  · simp [DataManager.deleteRow, h]
  · simp [DataManager.deleteColumn, h]

/-- Witness for C6 at a concrete store and a negative index. -/
theorem structural_ops_fail_soft_witness :
    DataManager.insertRow (DataManager.make 2 2 4 4) (-1) = (false, DataManager.make 2 2 4 4) ∧
    DataManager.deleteColumn (DataManager.make 2 1 4 4) 0 = (false, DataManager.make 2 1 4 4) := by
  exact ⟨(structural_ops_fail_soft (DataManager.make 2 2 4 4) (-1)).1 (Or.inl (by decide)),
    (structural_ops_fail_soft (DataManager.make 2 1 4 4) 0).2.2.2 (Or.inr (Or.inr (by decide)))⟩

/-! ### C5: set-then-get round trip -/

/-- C5: for in-max-bounds coordinates and a non-empty value that does not
start with the formula sentinel, setCellValue followed by getCellValue
returns the value; setCellValue on an out-of-max-bounds coordinate is a
silent no-op. -/
theorem setCellValue_getCellValue_roundtrip (φ : DataManager.Evaluator) (s : DataManager)
    (row col : Int) (v : String)
    (h0 : 0 ≤ row) (h1 : row < (s.maxRows : Int)) (h2 : 0 ≤ col) (h3 : col < (s.maxColumns : Int))
    (hv : v ≠ "") (hf : ¬ strStartsWith v "=") :
    DataManager.getCellValue (DataManager.setCellValue φ s row col v) row col = v ∧
    (∀ (t : DataManager) (r c : Int) (w : String), DataManager.outOfBounds t r c →
      DataManager.setCellValue φ t r c w = t) := by
  constructor
  · have hob : ¬ DataManager.outOfBounds s row col := by
      unfold DataManager.outOfBounds; omega
    have hob' : ∀ cells', ¬ DataManager.outOfBounds
        { DataManager.ensureCapacity s (row + 1) (col + 1) with cells := cells' } row col := by
      intro cells'
      unfold DataManager.outOfBounds
      simp only [ensureCapacity_maxRows, ensureCapacity_maxColumns]
      omega
    unfold DataManager.setCellValue
    rw [if_neg hob, if_neg hv]
    rcases hget : mapGet (row, col) (DataManager.ensureCapacity s (row + 1) (col + 1)).cells with
      _ | cell
    · simp only [hget]
      unfold DataManager.getCellValue
      rw [if_neg (hob' _)]
      simp [mapGet_mapSet_self, hf, Cell.make]
    · simp only [hget]
      unfold DataManager.getCellValue
      rw [if_neg (hob' _)]
      simp [mapGet_mapSet_self, hf, Cell.setValue]
  · intro t r c w hob
    unfold DataManager.setCellValue
    rw [if_pos hob]

/-- Witness for C5: writing "hi" at (1, 2) of a small store reads back. -/
theorem setCellValue_getCellValue_roundtrip_witness :
    DataManager.getCellValue
      (DataManager.setCellValue trivialEvaluator (DataManager.make 3 3 10 10) 1 2 "hi") 1 2 = "hi" :=
  (setCellValue_getCellValue_roundtrip trivialEvaluator (DataManager.make 3 3 10 10) 1 2 "hi"
    (by decide) (by decide) (by decide) (by decide) (by decide) (by decide)).1

/-! ### C7: insert / delete inverse law -/

/-- The cell map after an insert-row shift followed by a delete-row shift
at the same index carries the same coordinate-to-value association as
before. -/
theorem insert_delete_cells_map (i : Int) (l : List ((Int × Int) × Cell)) :
    ((l.map (fun e =>
        if i ≤ e.1.1 then ((e.1.1 + 1, e.1.2), { e.2 with row := e.1.1 + 1 }) else e)).filterMap
      (fun e =>
        if e.1.1 = i then none
        else if i < e.1.1 then some ((e.1.1 - 1, e.1.2), { e.2 with row := e.1.1 - 1 })
        else some e)).map (fun e => (e.1, e.2.value)) =
    l.map (fun e => (e.1, e.2.value)) := by
  rw [List.filterMap_map]
  induction l with
  | nil => simp
  | cons e tl ih =>
    obtain ⟨⟨r, c⟩, cell⟩ := e
    simp only [List.filterMap_cons, Function.comp_apply]
    by_cases hr : i ≤ r
    · have h1 : ¬ (r + 1 = i) := by omega
      have h2 : i < r + 1 := by omega
      have h3 : r + 1 - 1 = r := by omega
      simp [hr, h1, h2, h3, ih]
    · have h1 : ¬ (r = i) := by omega
      have h2 : ¬ (i < r) := by omega
      simp [hr, h1, h2, ih]

/-- C7 (amended): on a store with at least one row, a successful
insertRow(i) followed by deleteRow(i) succeeds and restores the pre-insert
coordinate-to-value cell contents and the pre-insert row count.  (The
one-row floor of deleteRow makes the unamended claim fail on a store
constructed with zero rows.) -/
theorem insertRow_then_deleteRow_restores (s : DataManager) (i : Int) (s₁ : DataManager)
    (hrc : 1 ≤ s.rowCount) (hins : DataManager.insertRow s i = (true, s₁)) :
    (DataManager.deleteRow s₁ i).1 = true ∧
    (DataManager.deleteRow s₁ i).2.cells.map (fun e => (e.1, e.2.value)) =
      s.cells.map (fun e => (e.1, e.2.value)) ∧
    (DataManager.deleteRow s₁ i).2.rowCount = s.rowCount := by
  unfold DataManager.insertRow at hins
  by_cases hg : i < 0 ∨ (s.rowCount : Int) < i ∨ s.maxRows ≤ s.rowCount
  · rw [if_pos hg] at hins
    simp at hins
  · rw [if_neg hg] at hins
    push_neg at hg
    obtain ⟨hi0, hile, -⟩ := hg
    injection hins with hb hs₁
    subst hs₁
    have hgd : ¬ (i < 0 ∨ ((s.rowCount + 1 : Nat) : Int) ≤ i ∨ (s.rowCount + 1 : Nat) ≤ 1) := by
      push_neg
      refine ⟨hi0, by push_cast; omega, by omega⟩
    unfold DataManager.deleteRow
    rw [if_neg hgd]
    refine ⟨rfl, ?_, by simp⟩
    simpa using insert_delete_cells_map i s.cells

/-- Counterexample to C7 as stated: on the legal store constructed with
zero rows, insertRow(0) succeeds but the following deleteRow(0) refuses
(it would reduce the count below 1), so the pre-insert row count 0 is not
restored. -/
theorem insertRow_deleteRow_not_inverse_at_zero_rows :
    (DataManager.insertRow (DataManager.make 0 0 5 5) 0).1 = true ∧
    (DataManager.deleteRow (DataManager.insertRow (DataManager.make 0 0 5 5) 0).2 0).1 = false ∧
    (DataManager.deleteRow (DataManager.insertRow (DataManager.make 0 0 5 5) 0).2 0).2.rowCount ≠
      (DataManager.make 0 0 5 5).rowCount := by
  decide

/-- Witness for the amended C7 on a concrete 2-by-2 store. -/
theorem insertRow_then_deleteRow_restores_witness :
    (DataManager.deleteRow (DataManager.insertRow (DataManager.make 2 2 4 4) 1).2 1).1 = true ∧
    (DataManager.deleteRow (DataManager.insertRow (DataManager.make 2 2 4 4) 1).2 1).2.cells.map
        (fun e => (e.1, e.2.value)) =
      (DataManager.make 2 2 4 4).cells.map (fun e => (e.1, e.2.value)) ∧
    (DataManager.deleteRow (DataManager.insertRow (DataManager.make 2 2 4 4) 1).2 1).2.rowCount =
      (DataManager.make 2 2 4 4).rowCount := by
  have h1 : (DataManager.insertRow (DataManager.make 2 2 4 4) 1).1 = true := by decide
  exact insertRow_then_deleteRow_restores (DataManager.make 2 2 4 4) 1
    (DataManager.insertRow (DataManager.make 2 2 4 4) 1).2 (by decide) (by rw [← h1])

/-! ### C1: command round trip -/

/-- C1 (code bug evidence): deleting row 0 of `demoStore` through
DeleteRowColumnCommand and undoing it succeeds and restores the cell
VALUE at (0, 0), but the restored cell carries the default left alignment
where the original cell was center-aligned: the snapshotted presentation
attributes are never written back by undo (the undo body has TODO comments
for exactly this), so the round trip does not restore all touched state. -/
theorem deleteRowCommand_undo_drops_alignment :
    (DeleteRowColumnCommand.execute demoStore .row 0 none).1 = true ∧
    (DeleteRowColumnCommand.undoCmd trivialEvaluator
        (DeleteRowColumnCommand.execute demoStore .row 0 none).2.1
        (DeleteRowColumnCommand.execute demoStore .row 0 none).2.2).1 = true ∧
    DataManager.getCellValue
        (DeleteRowColumnCommand.undoCmd trivialEvaluator
          (DeleteRowColumnCommand.execute demoStore .row 0 none).2.1
          (DeleteRowColumnCommand.execute demoStore .row 0 none).2.2).2 0 0 = "A" ∧
    (DataManager.getCell
        (DeleteRowColumnCommand.undoCmd trivialEvaluator
          (DeleteRowColumnCommand.execute demoStore .row 0 none).2.1
          (DeleteRowColumnCommand.execute demoStore .row 0 none).2.2).2 0 0).map
        Cell.horizontalAlignment = some HAlign.left ∧
    (DataManager.getCell demoStore 0 0).map Cell.horizontalAlignment = some HAlign.center := by
  decide

/-! ### C2: CommandGroup atomicity -/

theorem undoAllCatch_eq_of_undoAll_ok {σ : Type} (l : List (Cmd σ)) :
    ∀ (s t : σ), CommandGroup.undoAll l s = .ok t → CommandGroup.undoAllCatch l s = t := by
  induction l with
  | nil =>
    intro s t h
    simp only [CommandGroup.undoAll, Except.ok.injEq] at h
    simpa [CommandGroup.undoAllCatch] using h
  | cons c rest ih =>
    intro s t h
    rcases hc : c.undo s with s' | ⟨b, s'⟩
    · simp only [CommandGroup.undoAll, hc] at h
      exact absurd h (by simp)
    · simp only [CommandGroup.undoAll, hc] at h
      simp only [CommandGroup.undoAllCatch, hc]
      exact ih s' t h

/-- The execute loop with an accumulator of already-executed commands: if
undoing the accumulator from the current state restores `s₀`, then the
whole run either succeeds or lands back at `s₀`. -/
theorem executeAux_restores {σ : Type} (cmds : List (Cmd σ)) :
    ∀ (executed : List (Cmd σ)) (s s₀ : σ),
    (∀ c ∈ cmds, ∀ u u', c.exec u = .ok (true, u') → c.undo u' = .ok (true, u)) →
    (∀ c ∈ cmds, ∀ u u', c.exec u = .ok (false, u') → u' = u) →
    (∀ c ∈ cmds, ∀ u u', c.exec u = .error u' → u' = u) →
    CommandGroup.undoAll executed s = .ok s₀ →
    CommandGroup.executeAux cmds executed s = (false, s₀) ∨
      ∃ s', CommandGroup.executeAux cmds executed s = (true, s') := by
  induction cmds with
  | nil => intro executed s s₀ _ _ _ _; exact Or.inr ⟨s, rfl⟩
  | cons c rest ih =>
    intro executed s s₀ hrev hfail hthrow hinv
    rcases hc : c.exec s with s' | ⟨b, s'⟩
    · obtain rfl : s = s' := (hthrow c (List.mem_cons_self c rest) s s' hc).symm
      left
      simp only [CommandGroup.executeAux, hc]
      rw [undoAllCatch_eq_of_undoAll_ok _ _ _ hinv]
    · cases b
      · obtain rfl : s = s' := (hfail c (List.mem_cons_self c rest) s s' hc).symm
        left
        simp only [CommandGroup.executeAux, hc, hinv]
      · have hu : c.undo s' = .ok (true, s) := hrev c (List.mem_cons_self c rest) s s' hc
        have hinv' : CommandGroup.undoAll (c :: executed) s' = .ok s₀ := by
          simp only [CommandGroup.undoAll, hu]
          exact hinv
        have := ih (c :: executed) s' s₀
          (fun c' hc' => hrev c' (List.mem_cons_of_mem c hc'))
          (fun c' hc' => hfail c' (List.mem_cons_of_mem c hc'))
          (fun c' hc' => hthrow c' (List.mem_cons_of_mem c hc'))
          hinv'
        simpa only [CommandGroup.executeAux, hc] using this

/-- C2: a CommandGroup of sub-commands whose successful executes are
exactly reversed by their undos, and whose failures and throws leave the
store untouched, is atomic: `execute` either succeeds outright or returns
false with the store identical to before the group ran; in particular, for
a group of three commands whose second fails, the result is false at the
initial store. -/
theorem commandGroup_execute_atomic {σ : Type} :
    (∀ (cmds : List (Cmd σ)) (s₀ : σ),
      (∀ c ∈ cmds, ∀ u u', c.exec u = .ok (true, u') → c.undo u' = .ok (true, u)) →
      (∀ c ∈ cmds, ∀ u u', c.exec u = .ok (false, u') → u' = u) →
      (∀ c ∈ cmds, ∀ u u', c.exec u = .error u' → u' = u) →
      CommandGroup.execute cmds s₀ = (false, s₀) ∨
        ∃ s', CommandGroup.execute cmds s₀ = (true, s')) ∧
    (∀ (c1 c2 c3 : Cmd σ) (s₀ s₁ : σ),
      c1.exec s₀ = .ok (true, s₁) → c1.undo s₁ = .ok (true, s₀) →
      c2.exec s₁ = .ok (false, s₁) →
      CommandGroup.execute [c1, c2, c3] s₀ = (false, s₀)) := by
  constructor
  · intro cmds s₀ hrev hfail hthrow
    exact executeAux_restores cmds [] s₀ s₀ hrev hfail hthrow rfl
  · intro c1 c2 c3 s₀ s₁ h1 hu1 h2
    simp only [CommandGroup.execute, CommandGroup.executeAux, h1, h2, CommandGroup.undoAll, hu1]

/-- Witness for C2: a three-command group over integer stores whose second
command fails leaves the store at its initial value 0 and reports false. -/
theorem commandGroup_execute_atomic_witness :
    CommandGroup.execute [cmdInc, cmdFail, cmdInc] (0 : Int) = (false, 0) :=
  (commandGroup_execute_atomic (σ := Int)).2 cmdInc cmdFail cmdInc 0 1 rfl rfl rfl

/-! ### CommandManager helper lemmas -/

theorem trimHistory_eq_drop {σ : Type} (m : Nat) (l : List (Cmd σ)) :
    CommandManager.trimHistory m l = l.drop (l.length - m) := by
  induction l with
  | nil => simp [CommandManager.trimHistory]
  | cons c rest ih =>
    unfold CommandManager.trimHistory
    by_cases h : m < rest.length + 1
    · have hlen : rest.length + 1 - m = (rest.length - m) + 1 := by omega
      simp only [if_pos h, ih, List.length_cons, hlen, List.drop_succ_cons]
    · have hlen : rest.length + 1 - m = 0 := by omega
      simp only [if_neg h, List.length_cons, hlen, List.drop_zero]

theorem trimHistory_length_le {σ : Type} (m : Nat) (l : List (Cmd σ)) :
    (CommandManager.trimHistory m l).length ≤ m := by
  rw [trimHistory_eq_drop, List.length_drop]
  omega

theorem trimHistory_nil {σ : Type} (m : Nat) :
    CommandManager.trimHistory m ([] : List (Cmd σ)) = [] := rfl

theorem trimHistory_cons {σ : Type} (m : Nat) (c : Cmd σ) (rest : List (Cmd σ)) :
    CommandManager.trimHistory m (c :: rest) =
      if m < rest.length + 1 then CommandManager.trimHistory m rest else c :: rest := rfl

theorem trimHistory_idem_append {σ : Type} (m : Nat) (a b : List (Cmd σ)) :
    CommandManager.trimHistory m (CommandManager.trimHistory m a ++ b) =
      CommandManager.trimHistory m (a ++ b) := by
  induction a with
  | nil => simp only [trimHistory_nil, List.nil_append]
  | cons c rest ih =>
    by_cases h : m < rest.length + 1
    · have h' : m < (rest ++ b).length + 1 := by
        rw [List.length_append]; omega
      rw [trimHistory_cons, if_pos h, ih, List.cons_append, trimHistory_cons, if_pos h']
    · rw [trimHistory_cons, if_neg h]

theorem trimHistory_concat_getLast {σ : Type} (m : Nat) (hm : 1 ≤ m)
    (l : List (Cmd σ)) (c : Cmd σ) :
    (CommandManager.trimHistory m (l ++ [c])).getLast? = some c := by
  rw [trimHistory_eq_drop]
  have hk : (l ++ [c]).length - m ≤ l.length := by
    simp only [List.length_append, List.length_singleton]; omega
  rw [List.drop_append_of_le_length hk]
  exact List.getLast?_concat _

/-! ### C3: CommandStack execute discipline -/

/-- When not paused and the command's execute returns true, `executeCommand`
pushes it onto the undo stack (trimmed) and clears the redo stack. -/
theorem applyOp_exec_success {σ : Type} (cm : CommandManager σ) (s s' : σ) (c : Cmd σ)
    (hp : cm.paused = false) (hc : c.exec s = .ok (true, s')) :
    CommandManager.applyOp (.exec c) (s, cm) =
      (s', { cm with
        undoStack := CommandManager.trimHistory cm.maxHistorySize (cm.undoStack ++ [c])
        redoStack := [] }) := by
  simp [CommandManager.applyOp, CommandManager.executeCommand, hp, hc]

/-- When the popped command's undo returns true, `undo` moves it from the
undo stack to the redo stack. -/
theorem applyOp_undo_success {σ : Type} (cm : CommandManager σ) (s s' : σ) (c : Cmd σ)
    (hlast : cm.undoStack.getLast? = some c) (hu : c.undo s = .ok (true, s')) :
    CommandManager.applyOp .undoOp (s, cm) =
      (s', { cm with undoStack := cm.undoStack.dropLast
                     redoStack := cm.redoStack ++ [c] }) := by
  simp [CommandManager.applyOp, CommandManager.undoCM, hlast, hu]

/-- C3: when not paused, executeCommand runs `cmd.execute()`; on success it
pushes the command (trimmed) and CLEARS the redo stack, on a false return
or a caught throw it pushes nothing and leaves both stacks untouched.
Consequently, after execute(cmd1); execute(cmd2); undo(); execute(cmd3)
(all successful, history bound at least 1), the redo stack is empty —
cmd2 is not reachable via redo, and redo() itself refuses. -/
theorem executeCommand_discipline {σ : Type} :
    (∀ (cm : CommandManager σ) (s : σ) (c : Cmd σ), cm.paused = false →
      (∀ s', c.exec s = .ok (true, s') →
        CommandManager.executeCommand cm s c =
          .ok (true, s', { cm with
            undoStack := CommandManager.trimHistory cm.maxHistorySize (cm.undoStack ++ [c])
            redoStack := [] })) ∧
      (∀ s', c.exec s = .ok (false, s') →
        CommandManager.executeCommand cm s c = .ok (false, s', cm)) ∧
      (∀ s', c.exec s = .error s' →
        CommandManager.executeCommand cm s c = .ok (false, s', cm))) ∧
    (∀ (cm₀ : CommandManager σ) (s₀ s₁ s₂ s₃ s₄ : σ) (c1 c2 c3 : Cmd σ),
      cm₀.paused = false → 1 ≤ cm₀.maxHistorySize →
      c1.exec s₀ = .ok (true, s₁) → c2.exec s₁ = .ok (true, s₂) →
      c2.undo s₂ = .ok (true, s₃) → c3.exec s₃ = .ok (true, s₄) →
      (CommandManager.applyOp (.exec c3)
          (CommandManager.applyOp .undoOp
            (CommandManager.applyOp (.exec c2)
              (CommandManager.applyOp (.exec c1) (s₀, cm₀))))).2.redoStack = [] ∧
      c2 ∉ (CommandManager.applyOp (.exec c3)
          (CommandManager.applyOp .undoOp
            (CommandManager.applyOp (.exec c2)
              (CommandManager.applyOp (.exec c1) (s₀, cm₀))))).2.redoStack ∧
      (CommandManager.redoCM
          (CommandManager.applyOp (.exec c3)
            (CommandManager.applyOp .undoOp
              (CommandManager.applyOp (.exec c2)
                (CommandManager.applyOp (.exec c1) (s₀, cm₀))))).2
          (CommandManager.applyOp (.exec c3)
            (CommandManager.applyOp .undoOp
              (CommandManager.applyOp (.exec c2)
                (CommandManager.applyOp (.exec c1) (s₀, cm₀))))).1).1 = false) := by
  constructor
  · intro cm s c hp
    refine ⟨fun s' hc => ?_, fun s' hc => ?_, fun s' hc => ?_⟩ <;>
      simp [CommandManager.executeCommand, hp, hc]
  · intro cm₀ s₀ s₁ s₂ s₃ s₄ c1 c2 c3 hp hm h1 h2 hu2 h3
    simp only [CommandManager.applyOp, CommandManager.executeCommand, CommandManager.undoCM,
      hp, h1, h2, h3, hu2, Bool.false_eq_true, if_false,
      trimHistory_concat_getLast cm₀.maxHistorySize hm]
    refine ⟨by trivial, by simp, ?_⟩
    simp [CommandManager.redoCM]

/-- Witness for C3's scenario with three incrementing commands on the
default manager. -/
theorem executeCommand_discipline_witness :
    (CommandManager.applyOp (.exec cmdInc)
        (CommandManager.applyOp .undoOp
          (CommandManager.applyOp (.exec cmdInc)
            (CommandManager.applyOp (.exec cmdInc)
              ((0 : Int), CommandManager.make 100))))).2.redoStack = [] :=
  ((executeCommand_discipline (σ := Int)).2 (CommandManager.make 100) 0 1 2 1 2
    cmdInc cmdInc cmdInc rfl (by decide) rfl rfl rfl rfl).1

/-! ### C4: history bound invariant -/

/-- The inductive strengthening of the history bound: the two stacks
together never hold more than the maximum. -/
def histInv {σ : Type} (cm : CommandManager σ) : Prop :=
  cm.undoStack.length + cm.redoStack.length ≤ cm.maxHistorySize

theorem histInv_execStep {σ : Type} (c : Cmd σ) (s : σ) (cm : CommandManager σ)
    (h : histInv cm) :
    histInv (match CommandManager.executeCommand cm s c with
      | .ok (_, s', cm') => (s', cm')
      | .error (s', cm') => (s', cm')).2 ∧
    (match CommandManager.executeCommand cm s c with
      | .ok (_, s', cm') => (s', cm')
      | .error (s', cm') => (s', cm')).2.maxHistorySize = cm.maxHistorySize := by
  rcases hp : cm.paused with _ | _
  · rcases hc : c.exec s with s' | ⟨b, s'⟩
    · simp only [CommandManager.executeCommand, hp, Bool.false_eq_true, if_false, hc]
      exact ⟨h, by trivial⟩
    · cases b
      · simp only [CommandManager.executeCommand, hp, Bool.false_eq_true, if_false, hc]
        exact ⟨h, by trivial⟩
      · simp only [CommandManager.executeCommand, hp, Bool.false_eq_true, if_false, hc]
        refine ⟨?_, by trivial⟩
        unfold histInv
        simp only [List.length_nil]
        have := trimHistory_length_le cm.maxHistorySize (cm.undoStack ++ [c])
        omega
  · rcases hc : c.exec s with s' | ⟨b, s'⟩ <;>
      simp only [CommandManager.executeCommand, hp, if_true, hc] <;> exact ⟨h, by trivial⟩

/-- C4 combined statement: the constructor establishes the history
invariant; every public operation preserves it (and never changes the
maximum); the invariant bounds the undo stack length by the maximum; and
executing `mx + k` always-successful commands on a fresh manager leaves
exactly the last `mx` of them undoable, the oldest `k` dropped. -/
theorem executeList_all_success {σ : Type} (cmds : List (Cmd σ)) :
    ∀ (s : σ) (cm : CommandManager σ), cm.paused = false →
    (∀ c ∈ cmds, ∀ u, ∃ u', c.exec u = .ok (true, u')) →
    (CommandManager.executeList cmds (s, cm)).2.undoStack =
      (if cmds.isEmpty then cm.undoStack
       else CommandManager.trimHistory cm.maxHistorySize (cm.undoStack ++ cmds)) ∧
    (CommandManager.executeList cmds (s, cm)).2.redoStack =
      (if cmds.isEmpty then cm.redoStack else []) ∧
    (CommandManager.executeList cmds (s, cm)).2.maxHistorySize = cm.maxHistorySize := by
  induction cmds with
  | nil => intro s cm _ _; simp [CommandManager.executeList]
  | cons c rest ih =>
    intro s cm hp hsucc
    obtain ⟨s', hc⟩ := hsucc c (List.mem_cons_self c rest) s
    have hstep := applyOp_exec_success cm s s' c hp hc
    have hrec := ih s'
      { cm with undoStack := CommandManager.trimHistory cm.maxHistorySize (cm.undoStack ++ [c])
                redoStack := [] }
      hp (fun c' hc' u => hsucc c' (List.mem_cons_of_mem c hc') u)
    simp only [CommandManager.executeList, hstep]
    rcases hrest : rest.isEmpty with _ | _
    · simp only [hrest, if_false] at hrec
      obtain ⟨h1, h2, h3⟩ := hrec
      refine ⟨?_, ?_, h3⟩
      · rw [h1]
        simp only [List.isEmpty_cons, if_false]
        rw [trimHistory_idem_append, List.append_assoc]
        rfl
      · rw [h2]; simp
    · have hrest' : rest = [] := List.isEmpty_iff.mp hrest
      subst hrest'
      simp only [CommandManager.executeList] at hrec ⊢
      simp

theorem history_bound {σ : Type} :
    (∀ mx : Nat, histInv (CommandManager.make (σ := σ) mx)) ∧
    (∀ (op : CommandManager.Op σ) (st : σ × CommandManager σ), histInv st.2 →
      histInv (CommandManager.applyOp op st).2 ∧
      (CommandManager.applyOp op st).2.maxHistorySize = st.2.maxHistorySize) ∧
    (∀ cm : CommandManager σ, histInv cm → cm.undoStack.length ≤ cm.maxHistorySize) ∧
    (∀ (mx k : Nat) (cmds : List (Cmd σ)) (s₀ : σ),
      cmds.length = mx + k →
      (∀ c ∈ cmds, ∀ u, ∃ u', c.exec u = .ok (true, u')) →
      (CommandManager.executeList cmds (s₀, CommandManager.make mx)).2.undoStack = cmds.drop k ∧
      (CommandManager.executeList cmds (s₀, CommandManager.make mx)).2.undoStack.length = mx) := by
  refine ⟨?_, ?_, ?_, ?_⟩
  · intro mx
    simp [histInv, CommandManager.make]
  · intro op st h
    obtain ⟨s, cm⟩ := st
    replace h : histInv cm := h
    cases op with
    | exec c => exact histInv_execStep c s cm h
    | execGroup cs =>
      by_cases hcs : cs.length = 0
      · simp only [CommandManager.applyOp, hcs, if_pos]
        exact ⟨h, by trivial⟩
      · simp only [CommandManager.applyOp, hcs, if_neg, if_false]
        exact histInv_execStep (CommandGroup.asCmd cs) s cm h
    | undoOp =>
      simp only [CommandManager.applyOp]
      rcases hlast : cm.undoStack.getLast? with _ | c
      · simp only [CommandManager.undoCM, hlast]
        exact ⟨h, by trivial⟩
      · have hne : cm.undoStack ≠ [] := by
          intro hnil; rw [hnil] at hlast; simp at hlast
        have hlen : 1 ≤ cm.undoStack.length := List.length_pos.mpr hne
        rcases hu : c.undo s with s' | ⟨b, s'⟩
        · simp only [CommandManager.undoCM, hlast, hu]
          refine ⟨?_, by trivial⟩
          unfold histInv at h ⊢
          simp only [List.length_append, List.length_dropLast, List.length_singleton]
          omega
        · cases b <;> simp only [CommandManager.undoCM, hlast, hu] <;> refine ⟨?_, by trivial⟩ <;>
            unfold histInv at h ⊢ <;>
            simp only [List.length_append, List.length_dropLast, List.length_singleton] <;>
            omega
    | redoOp =>
      simp only [CommandManager.applyOp]
      rcases hlast : cm.redoStack.getLast? with _ | c
      · simp only [CommandManager.redoCM, hlast]
        exact ⟨h, by trivial⟩
      · have hne : cm.redoStack ≠ [] := by
          intro hnil; rw [hnil] at hlast; simp at hlast
        have hlen : 1 ≤ cm.redoStack.length := List.length_pos.mpr hne
        rcases hu : c.exec s with s' | ⟨b, s'⟩
        · simp only [CommandManager.redoCM, hlast, hu]
          refine ⟨?_, by trivial⟩
          unfold histInv at h ⊢
          simp only [List.length_append, List.length_dropLast, List.length_singleton]
          omega
        · cases b <;> simp only [CommandManager.redoCM, hlast, hu] <;> refine ⟨?_, by trivial⟩ <;>
            unfold histInv at h ⊢ <;>
            simp only [List.length_append, List.length_dropLast, List.length_singleton] <;>
            omega
    | clearHist =>
      simp only [CommandManager.applyOp, CommandManager.clearHistory]
      refine ⟨?_, by trivial⟩
      unfold histInv
      simp
    | pause => exact ⟨h, by trivial⟩
    | resume => exact ⟨h, by trivial⟩
  · intro cm h
    unfold histInv at h
    omega
  · intro mx k cmds s₀ hlen hsucc
    have := executeList_all_success cmds s₀ (CommandManager.make mx) rfl hsucc
    obtain ⟨h1, -, -⟩ := this
    by_cases hc : cmds.isEmpty
    · have hcnil : cmds = [] := List.isEmpty_iff.mp hc
      subst hcnil
      simp only [List.length_nil] at hlen
      have hk : k = 0 := by omega
      subst hk
      simp only [if_pos hc] at h1
      constructor
      · rw [h1]; rfl
      · rw [h1]
        simp only [CommandManager.make, List.length_nil]
        omega
    · simp only [if_neg hc] at h1
      have htrim : CommandManager.trimHistory (CommandManager.make (σ := σ) mx).maxHistorySize
          ((CommandManager.make (σ := σ) mx).undoStack ++ cmds) = cmds.drop k := by
        show CommandManager.trimHistory mx ([] ++ cmds) = cmds.drop k
        rw [List.nil_append, trimHistory_eq_drop, hlen]
        congr 1
        omega
      refine ⟨h1.trans htrim, ?_⟩
      rw [h1, htrim, List.length_drop, hlen]
      omega

/-- Witness for C4: three always-succeeding commands on a manager bounded
at 2 leave the last two undoable. -/
theorem history_bound_witness :
    (CommandManager.executeList [cmdInc, cmdInc, cmdInc]
      ((0 : Int), CommandManager.make 2)).2.undoStack = [cmdInc, cmdInc, cmdInc].drop 1 ∧
    (CommandManager.executeList [cmdInc, cmdInc, cmdInc]
      ((0 : Int), CommandManager.make 2)).2.undoStack.length = 2 :=
  (history_bound (σ := Int)).2.2.2 2 1 [cmdInc, cmdInc, cmdInc] 0 rfl
    (by
      intro c hc u
      simp only [List.mem_cons, List.not_mem_nil, or_false] at hc
      rcases hc with rfl | rfl | rfl <;> exact ⟨u + 1, rfl⟩)

/-! ### Selection helper lemmas -/

theorem pushRange_activeRange (s : Selection) (r : CellRange) (a : Bool) :
    (Selection.pushRange s r a).activeRange = some s.arena.length := rfl

theorem pushRange_multiSelect (s : Selection) (r : CellRange) (a : Bool) :
    (Selection.pushRange s r a).multiSelect = s.multiSelect := by
  simp only [Selection.pushRange, Selection.alloc, Selection.clearSelection]
  split <;> rfl

theorem pushRange_ranges (s : Selection) (r : CellRange) (a : Bool) :
    (Selection.pushRange s r a).ranges =
      (if ¬a ∨ ¬s.multiSelect then [] else s.ranges) ++ [s.arena.length] := by
  simp only [Selection.pushRange, Selection.alloc, Selection.clearSelection]
  by_cases hc : ¬a = true ∨ ¬s.multiSelect = true
  · rw [if_pos hc, if_pos hc]
  · rw [if_neg hc, if_neg hc]

theorem removeRange_multiSelect (s : Selection) (i : Int) :
    (Selection.removeRange s i).multiSelect = s.multiSelect := by
  unfold Selection.removeRange
  split
  · rcases s.ranges.get? i.toNat with _ | removed <;> rfl
  · rfl

theorem activeInv_pushRange (s : Selection) (r : CellRange) (a : Bool) :
    Selection.activeInv (Selection.pushRange s r a) := by
  intro id hid
  rw [pushRange_activeRange] at hid
  rw [pushRange_ranges]
  cases hid
  exact List.mem_append_right _ (List.mem_singleton.mpr rfl)

theorem activeInv_removeRange (s : Selection) (i : Int) (h : Selection.activeInv s) :
    Selection.activeInv (Selection.removeRange s i) := by
  unfold Selection.removeRange
  by_cases hc : 0 ≤ i ∧ i < (s.ranges.length : Int)
  · rw [if_pos hc]
    rcases hget : s.ranges.get? i.toNat with _ | removed
    · exact h
    · intro id hid
      simp only [] at hid ⊢
      by_cases hact : s.activeRange = some removed
      · rw [if_pos hact] at hid
        exact mem_of_getLast? hid
      · rw [if_neg hact] at hid
        exact mem_take_append_drop_of_ne (h id hid) hget
          (fun heq => hact (heq ▸ hid))
  · rw [if_neg hc]
    exact h

/-! ### C10: selectRowRange multiSelect side effect -/

/-- C10: selectRowRange unconditionally turns multi-select on before the
clear-then-append step, and the flag persists, so a subsequent
selectCell(..., true) adds a range instead of replacing the selection;
none of selectCell, selectRange, selectColumn, selectColumnRange,
selectRow, extendSelection, toggleCell, selectAll changes the flag. -/
theorem selectRowRange_sets_multiSelect (s : Selection)
    (sr er row col startRow startCol endRow endCol : Int) (add : Bool) :
    (Selection.selectRowRange s sr er add).multiSelect = true ∧
    (Selection.selectCell s row col add).multiSelect = s.multiSelect ∧
    (Selection.selectRange s startRow startCol endRow endCol add).multiSelect = s.multiSelect ∧
    (Selection.selectColumn s col add).multiSelect = s.multiSelect ∧
    (Selection.selectColumnRange s startCol endCol add).multiSelect = s.multiSelect ∧
    (Selection.selectRow s row add).multiSelect = s.multiSelect ∧
    (Selection.extendSelection s row col).multiSelect = s.multiSelect ∧
    (Selection.toggleCell s row col).multiSelect = s.multiSelect ∧
    (Selection.selectAll s).multiSelect = s.multiSelect ∧
    (Selection.selectCell (Selection.selectRowRange s sr er add) row col true).ranges.length =
      (Selection.selectRowRange s sr er add).ranges.length + 1 := by
  have hrr : (Selection.selectRowRange s sr er add).multiSelect = true := by
    unfold Selection.selectRowRange
    rw [pushRange_multiSelect]
  refine ⟨hrr, ?_, ?_, ?_, ?_, ?_, ?_, ?_, rfl, ?_⟩
  · exact pushRange_multiSelect _ _ _
  · exact pushRange_multiSelect _ _ _
  · exact pushRange_multiSelect _ _ _
  · exact pushRange_multiSelect _ _ _
  · exact pushRange_multiSelect _ _ _
  · unfold Selection.extendSelection
    rcases s.activeRange with _ | id
    · exact pushRange_multiSelect _ _ _
    · rfl
  · unfold Selection.toggleCell
    rcases s.ranges.findIdx? (fun id => (Selection.getRange s id).contains row col) with _ | idx
    · exact pushRange_multiSelect _ _ _
    · exact removeRange_multiSelect _ _
  · unfold Selection.selectCell
    rw [pushRange_ranges]
    rw [if_neg (by rw [hrr]; simp)]
    simp

/-! ### C8: active-range membership invariant -/

theorem lt_length_of_get? {α : Type} {l : List α} {k : Nat} {a : α}
    (h : l.get? k = some a) : k < l.length := by
  rw [List.get?_eq_getElem?] at h
  exact (List.getElem?_eq_some.mp h).1

theorem getD_append_length {α : Type} (l : List α) (x : α) (xs : List α) (d : α) :
    (l ++ x :: xs).getD l.length d = x := by
  simp [List.getD, List.getElem?_append_right (le_refl l.length)]

theorem getD_append_add {α : Type} (l l' : List α) (k : Nat) (d : α) :
    (l ++ l').getD (l.length + k) d = l'.getD k d := by
  simp [List.getD, List.getElem?_append_right (Nat.le_add_right l.length k)]

theorem getD_map_of_get? {α β : Type} (l : List α) (f : α → β) (k : Nat) (a : α) (d : β)
    (h : l.get? k = some a) : (l.map f).getD k d = f a := by
  rw [List.get?_eq_getElem?] at h
  simp [List.getD, List.getElem?_map, h]

theorem getD_append_left {α : Type} (l l' : List α) (n : Nat) (d : α) (h : n < l.length) :
    (l ++ l').getD n d = l.getD n d := by
  simp [List.getD, List.getElem?_append, h]

/-- C8 (amended): the constructor establishes the identity-membership
invariant and every public operation EXCEPT clone preserves it; for clone,
the cloned active range is only VALUE-equal to a member of the cloned
ranges (it is a separate clone object, so identity membership fails —
see the counterexample). -/
theorem selection_activeRange_membership :
    (∀ (mr mc : Int), Selection.activeInv (Selection.make mr mc)) ∧
    (∀ (op : Selection.Op) (s : Selection), Selection.activeInv s →
      Selection.activeInv (Selection.applyOp op s)) ∧
    (∀ (s : Selection) (aid : Nat), Selection.activeInv s → s.activeRange = some aid →
      ∃ a', (Selection.clone s).activeRange = some a' ∧
        ∃ rid ∈ (Selection.clone s).ranges,
          Selection.getRange (Selection.clone s) rid =
            Selection.getRange (Selection.clone s) a') := by
  refine ⟨?_, ?_, ?_⟩
  · intro mr mc
    exact activeInv_pushRange ⟨[], [], none, false, mr, mc⟩ _ _
  · intro op s h
    cases op with
    | selCell row col a => exact activeInv_pushRange s _ _
    | selRange sr sc er ec a => exact activeInv_pushRange s _ _
    | selColumn col a => exact activeInv_pushRange s _ _
    | selColumnRange sc ec a => exact activeInv_pushRange s _ _
    | selRow row a => exact activeInv_pushRange s _ _
    | selRowRange sr er a => exact activeInv_pushRange _ _ _
    | extend row col =>
      simp only [Selection.applyOp, Selection.extendSelection]
      rcases hact : s.activeRange with _ | id
      · exact activeInv_pushRange s _ _
      · intro id' hid'
        simp only [] at hid'
        cases hid'
        exact h id hact
    | remove i => exact activeInv_removeRange s i h
    | toggle row col =>
      simp only [Selection.applyOp, Selection.toggleCell]
      rcases s.ranges.findIdx? (fun id => (Selection.getRange s id).contains row col) with _ | idx
      · exact activeInv_pushRange s _ _
      · exact activeInv_removeRange s _ h
    | clearSel =>
      intro id hid
      simp only [Selection.applyOp, Selection.clearSelection] at hid
      exact absurd hid (by simp)
    | selAll =>
      intro id hid
      simp only [Selection.applyOp, Selection.selectAll, Selection.alloc,
        Selection.clearSelection] at hid ⊢
      cases hid
      simp
    | setMulti e =>
      simp only [Selection.applyOp, Selection.setMultiSelect]
      by_cases hcond : ¬e = true ∧ 1 < s.ranges.length
      · rw [if_pos hcond]
        intro id hid
        simp only [] at hid ⊢
        rw [hid]
        simp
      · rw [if_neg hcond]
        exact h
  · intro s aid h hact
    obtain ⟨k, hk⟩ := List.get?_of_mem (h aid hact)
    have hklen : k < s.ranges.length := lt_length_of_get? hk
    simp only [Selection.clone, hact]
    refine ⟨_, rfl, (Selection.make s.maxRows s.maxCols).arena.length + k, ?_, ?_⟩
    · simp only [List.mem_map, List.mem_range]
      exact ⟨k, hklen, rfl⟩
    · unfold Selection.getRange
      rw [getD_append_length]
      rw [List.append_assoc]
      rw [getD_append_add]
      rw [getD_append_left _ _ _ _ (by simpa using hklen)]
      rw [getD_map_of_get? _ _ _ _ _ hk]

/-- Counterexample to C8 as stated: cloning the freshly constructed
Selection yields a state whose activeRange identity is NOT a member of its
ranges sequence (the active range is a separate clone object). -/
theorem selection_clone_breaks_activeRange_identity :
    ¬ Selection.activeInv (Selection.clone (Selection.make 1000000 5000)) := by
  decide

/-- Witness for C8's preservation part at a concrete operation and state. -/
theorem selection_activeRange_membership_witness :
    Selection.activeInv (Selection.applyOp (.selCell 1 1 false) (Selection.make 10 10)) :=
  selection_activeRange_membership.2.1 (.selCell 1 1 false) (Selection.make 10 10) (by decide)

end Excel
